import Mathlib

set_option maxRecDepth 1000000

/-!
Verification development for RedisTimeseriesManager, a logical-table
abstraction over a redis-timeseries backend.  The repository ships the
class declaration sites and example notebooks (with recorded outputs)
under `src/`, while the implementation module
`src/redis_timeseries_manager.py` itself is absent; the definitions
below therefore embed the orchestration layer as described by the
design document, and every place where a recorded notebook output pins
a behavioural detail is noted on the corresponding definition.
Timestamps are natural numbers (seconds at the API, milliseconds in
the store), values are integers, and the (success, payload) result
tuples of the python API are embedded as `Except String`.
-/

/-- Boolean lexicographic order on lists of naturals, used to compare
strings by their character codes (the builtin `String` order does not
reduce in the kernel). -/
def natLexLe : List Nat → List Nat → Bool
  | [], _ => true
  | _ :: _, [] => false
  | a :: as, b :: bs => if a < b then true else if b < a then false else natLexLe as bs

/-- Character-code key of a string, for ordering purposes. -/
def strKey (s : String) : List Nat := s.data.map Char.toNat

/-- Boolean order on strings via character codes. -/
def strLeB (s t : String) : Bool := natLexLe (strKey s) (strKey t)

/-- Boolean order on naturals. -/
def natLeB (a b : Nat) : Bool := Nat.ble a b

/-- Insertion of an element into a list sorted by a boolean comparator. -/
def insertSorted (le : α → α → Bool) (a : α) : List α → List α
  | [] => [a]
  | b :: bs => if le a b then a :: b :: bs else b :: insertSorted le a bs

/-- Insertion sort by a boolean comparator. -/
def isortBy (le : α → α → Bool) : List α → List α
  | [] => []
  | a :: as => insertSorted le a (isortBy le as)

/-- Specification of one timeframe: retention, optional bucket duration
(present iff the timeframe is a compaction target) and the no-rules flag. -/
structure TimeframeSpec where
  retentionSecs : Nat
  bucketSecs : Option Nat
  ignoreRules : Bool
deriving DecidableEq

/-- Static table declaration: table name, ordered line names and the
ordered timeframe map, mirroring the `_name`, `_lines` and `_timeframes`
class attributes of the python library. -/
structure TableDef where
  name : String
  lines : List String
  timeframes : List (String × TimeframeSpec)
deriving DecidableEq

/-- A table definition together with the caller-supplied aggregator
selection hook `_create_rule` (modelled as a pure selection function
returning the aggregator kind for a line/timeframe, or none). -/
structure Manager where
  td : TableDef
  aggSelect : String → String → String → String → TimeframeSpec → String → String → Option String

/-- One physical series of the external store: key, label set,
retention and the points list (timestamp in milliseconds, value),
kept sorted ascending by timestamp. -/
structure Series where
  key : String
  labels : List (String × String)
  retentionSecs : Nat
  points : List (Nat × Int)
deriving DecidableEq

/-- One downsampling rule of the external store. -/
structure Rule where
  sourceKey : String
  destKey : String
  agg : String
  bucketSecs : Nat
deriving DecidableEq

/-- The external store state: the series and the rule set. -/
structure Store where
  series : List Series
  rules : List Rule
deriving DecidableEq

/-- The empty store. -/
def emptyStore : Store := ⟨[], []⟩

deriving instance DecidableEq for Except

/-- Modelled from the spec: the KeyNamingScheme of the missing
implementation module.  The physical identifier of a series is
`table:c1:c2:timeframe:line`, as confirmed by the recorded
`query_index` key lists in both example notebooks. -/
def keyName (td : TableDef) (c1 c2 tf line : String) : String :=
  td.name ++ ":" ++ c1 ++ ":" ++ c2 ++ ":" ++ tf ++ ":" ++ line

/-- Modelled from the spec: the label set attached to a series,
`extra_labels` merged with tl/c1/c2/line/timeframe, in the order shown
by the recorded `stats` outputs. -/
def labelSet (td : TableDef) (c1 c2 tf line : String)
    (extra : List (String × String)) : List (String × String) :=
  extra ++ [("tl", td.name), ("c1", c1), ("c2", c2), ("line", line), ("timeframe", tf)]

/-- Existence of a series key in the store. -/
def Store.hasKey (s : Store) (k : String) : Bool := s.series.any (fun sr => sr.key == k)

/-- Existence of a rule (by source and destination) in the store. -/
def Store.hasRule (s : Store) (src dst : String) : Bool :=
  s.rules.any (fun r => r.sourceKey == src && r.destKey == dst)

/-- Series creation at the store: a no-op when the key already exists
(the store reports already-exists and the manager proceeds). -/
def ensureSeries (s : Store) (k : String) (ret : Nat)
    (lbl : List (String × String)) : Store :=
  if s.hasKey k then s else { s with series := s.series ++ [⟨k, lbl, ret, []⟩] }

/-- Rule creation at the store: a no-op when a rule with the same
source and destination already exists. -/
def ensureRule (s : Store) (r : Rule) : Store :=
  if s.hasRule r.sourceKey r.destKey then s else { s with rules := s.rules ++ [r] }

/-- Name of the base (first, directly written) timeframe. -/
def baseName (td : TableDef) : String := ((td.timeframes.head?).map (fun p => p.1)).getD ""

/-- All (timeframe, spec, line) triples of a table, in declaration order. -/
def tfLineTriples (td : TableDef) : List (String × TimeframeSpec × String) :=
  td.timeframes.foldr (fun p acc => (td.lines.map (fun l => (p.1, p.2, l))) ++ acc) []

/-- Modelled from the spec: the downsampling rules requested by
lifecycle creation for one classifier pair.  For every ruled timeframe
(bucket present, no-rules flag off) and every line with an aggregator
selected by the hook, a rule is requested whose source is the BASE
timeframe's series of that line; the recorded `stats` output in
src/unnamed/part_000 pins this (the raw series lists the rules into
1m, 1h and 1d, so every rule fans out from the base rather than
chaining through the previous timeframe). -/
def ruleRequests (m : Manager) (c1 c2 : String) : List Rule :=
  m.td.timeframes.foldr
    (fun p acc =>
      (match p.2.bucketSecs, p.2.ignoreRules with
        | some b, false =>
          m.td.lines.foldr
            (fun l lacc =>
              let src := keyName m.td c1 c2 (baseName m.td) l
              let dst := keyName m.td c1 c2 p.1 l
              (match m.aggSelect c1 c2 l p.1 p.2 src dst with
                | some agg => [⟨src, dst, agg, b⟩]
                | none => []) ++ lacc) []
        | _, _ => []) ++ acc) []

/-- Modelled from the spec: SeriesLifecycleManager.create for one
classifier pair (the implementation module is missing from src/).
Creates one series per (timeframe x line) with the timeframe's
retention and the derived label set, then requests the downsampling
rules; returns the success flag and message recorded in the sensor
notebook.  The per-triple step of the series-creation phase. -/
def seriesStep (m : Manager) (c1 c2 : String) (extra : List (String × String))
    (acc : Store) (t : String × TimeframeSpec × String) : Store :=
  ensureSeries acc (keyName m.td c1 c2 t.1 t.2.2) t.2.1.retentionSecs
    (labelSet m.td c1 c2 t.1 t.2.2 extra)

/-- Fold of series creation over a list of (timeframe, spec, line) triples. -/
def seriesFold (m : Manager) (c1 c2 : String) (extra : List (String × String))
    (L : List (String × TimeframeSpec × String)) (s : Store) : Store :=
  L.foldl (seriesStep m c1 c2 extra) s

/-- Series-creation phase of lifecycle creation. -/
def createSeriesPhase (m : Manager) (c1 c2 : String) (extra : List (String × String))
    (s : Store) : Store :=
  seriesFold m c1 c2 extra (tfLineTriples m.td) s

/-- Fold of rule creation over a list of rule requests. -/
def rulesFold (L : List Rule) (s : Store) : Store := L.foldl ensureRule s

/-- Rule-wiring phase of lifecycle creation. -/
def createRulesPhase (m : Manager) (c1 c2 : String) (s : Store) : Store :=
  rulesFold (ruleRequests m c1 c2) s

/-- Lifecycle creation result: success flag and message, then the store. -/
def createPair (m : Manager) (c1 c2 : String) (extra : List (String × String))
    (s : Store) : (Bool × String) × Store :=
  ((true, "Create " ++ c1 ++ ":" ++ c2 ++ " success!"),
    createRulesPhase m c1 c2 (createSeriesPhase m c1 c2 extra s))

/-- Sorted list of all series keys, as returned by
`query_index(return_key_names=True)`. -/
def queryIndexKeys (s : Store) : List String := isortBy strLeB (s.series.map (fun sr => sr.key))

/-- Rules originating at a given key, as surfaced by `stats` (the
store lists, for a key, the rules whose source is that key). -/
def statsRules (s : Store) (k : String) : List (String × Nat × String) :=
  (s.rules.filter (fun r => r.sourceKey == k)).map (fun r => (r.destKey, r.bucketSecs, r.agg))

/-- Table declaration of the MarketData example class (OHLCV). -/
def marketDef : TableDef :=
  { name := "markets"
    lines := ["open", "high", "low", "close", "volume"]
    timeframes :=
      [("raw", ⟨345600, none, false⟩),
       ("1m", ⟨604800, some 60, false⟩),
       ("1h", ⟨2592000, some 3600, false⟩),
       ("1d", ⟨31536000, some 86400, false⟩)] }

/-- Aggregator selection of the MarketData example class. -/
def marketAggSelect (line : String) : Option String :=
  if line = "open" then some "first"
  else if line = "close" then some "last"
  else if line = "high" then some "max"
  else if line = "low" then some "min"
  else if line = "volume" then some "sum"
  else none

/-- The MarketData manager. -/
def marketMgr : Manager :=
  { td := marketDef
    aggSelect := fun _ _ line _ _ _ _ => marketAggSelect line }

/-- Store after creating the classifier pair crypto:btc of the
MarketData example. -/
def btcStore : Store := (createPair marketMgr "crypto" "btc" [] emptyStore).2

/-- Store after creating the three classifier pairs of the MarketData
example notebook. -/
def marketStore : Store :=
  (createPair marketMgr "irx" "usd" []
    (createPair marketMgr "crypto" "eth" []
      (createPair marketMgr "crypto" "btc" [] emptyStore).2).2).2

/-- Upsert of a point into a sorted points list, keeping the last
value on a duplicate timestamp (the configured duplicate policy). -/
def upsertPoint : List (Nat × Int) → Nat → Int → List (Nat × Int)
  | [], ts, v => [(ts, v)]
  | p :: rest, ts, v =>
    if ts < p.1 then (ts, v) :: p :: rest
    else if ts = p.1 then (ts, v) :: rest
    else p :: upsertPoint rest ts v

/-- Point append at the store: succeeds iff the series exists, in
which case the point is upserted into that series. -/
def appendPoint (s : Store) (k : String) (ts : Nat) (v : Int) : Bool × Store :=
  if s.hasKey k then
    (true,
      { s with
        series := s.series.map (fun sr =>
          if sr.key == k then { sr with points := upsertPoint sr.points ts v } else sr) })
  else (false, s)

/-- Modelled from the spec: the per-row line fan-out of
IngestCoordinator.insert (implementation module missing from src/).
Each (line, value) pair is appended to its own series; failures are
collected per line and do not stop sibling lines. -/
def appendLines (td : TableDef) (c1 c2 tf : String) (ts : Nat) :
    List (String × Int) → Store → Bool × Nat × Store
  | [], s => (true, 0, s)
  | lv :: rest, s =>
    let p := appendPoint s (keyName td c1 c2 tf lv.1) ts lv.2
    let q := appendLines td c1 c2 tf ts rest p.2
    (p.1 && q.1, (if p.1 then 1 else 0) + q.2.1, q.2.2)

/-- Modelled from the spec: the row loop of IngestCoordinator.insert.
Rows carry their identity (fixed c2, or extracted from the row when
`c2_position` is used); the API timestamp is in seconds and is stored
multiplied by 1000; with `create_inplace` the lifecycle creation runs
before the row's points are appended. -/
def insertRowsGo (m : Manager) (c1 tf : String) (ci : Bool)
    (extra : List (String × String)) :
    List (String × Nat × List Int) → Store → Bool × Nat × Store
  | [], s => (true, 0, s)
  | r :: rest, s =>
    let s0 := if ci then (createPair m c1 r.1 extra s).2 else s
    let row :=
      if r.2.2.length = m.td.lines.length then
        appendLines m.td c1 r.1 tf (r.2.1 * 1000) (m.td.lines.zip r.2.2) s0
      else (false, 0, s0)
    let q := insertRowsGo m c1 tf ci extra rest row.2.2
    (row.1 && q.1, row.2.1 + q.2.1, q.2.2)

/-- Specification lookup for a timeframe name. -/
def tfSpec? (td : TableDef) (tf : String) : Option TimeframeSpec :=
  (td.timeframes.find? (fun p => p.1 == tf)).map (fun p => p.2)

/-- Modelled from the spec: IngestCoordinator.insert over rows tagged
with their c2 identity.  A write into an unknown timeframe or into a
compaction target (bucket duration present) is rejected with nothing
appended; otherwise the rows are ingested and the call returns the
success flag together with the total count of successfully appended
per-line points. -/
def insertInto (m : Manager) (c1 tf : String) (ci : Bool)
    (extra : List (String × String)) (rows : List (String × Nat × List Int))
    (s : Store) : (Bool × Nat) × Store :=
  match tfSpec? m.td tf with
  | none => ((false, 0), s)
  | some spec =>
    if spec.bucketSecs.isSome then ((false, 0), s)
    else
      let r := insertRowsGo m c1 tf ci extra rows s
      ((r.1, r.2.1), r.2.2)

/-- Insert with a fixed c2 identity (rows are (timestamp, values)). -/
def insertFixed (m : Manager) (c1 c2 tf : String) (ci : Bool)
    (extra : List (String × String)) (rows : List (Nat × List Int))
    (s : Store) : (Bool × Nat) × Store :=
  insertInto m c1 tf ci extra (rows.map (fun r => (c2, r.1, r.2))) s

/-- Insert with `c2_position = 0`: each row carries its identity in
front, as in the output-formats notebook. -/
def insertPos0 (m : Manager) (c1 tf : String) (ci : Bool)
    (extra : List (String × String)) (rows : List (String × Nat × List Int))
    (s : Store) : (Bool × Nat) × Store :=
  insertInto m c1 tf ci extra rows s

/-- Label lookup on a series. -/
def getLabel (sr : Series) (name : String) : Option String :=
  ((sr.labels.find? (fun p => p.1 == name)).map (fun p => p.2))

/-- A read filter for c2: either a plain identity or a label predicate. -/
inductive C2F where
  | ident (c2 : String)
  | labels (preds : List (String × String))
deriving DecidableEq

/-- Modelled from the spec: the series filter of the query engine.  A
series matches when its tl/c1/timeframe labels match and the c2 part
matches the identity or every predicate label. -/
def seriesMatches (m : Manager) (c1 : String) (c2f : C2F) (tf : String)
    (sr : Series) : Bool :=
  getLabel sr "tl" == some m.td.name && getLabel sr "c1" == some c1 &&
  getLabel sr "timeframe" == some tf &&
  (match c2f with
    | .ident c2 => getLabel sr "c2" == some c2
    | .labels preds => preds.all (fun p => getLabel sr p.1 == some p.2))

/-- All series matching a filter. -/
def matchedSeries (m : Manager) (c1 : String) (c2f : C2F) (tf : String)
    (s : Store) : List Series :=
  s.series.filter (seriesMatches m c1 c2f tf)

/-- Distinct identities (c2 label values) among a list of series,
sorted for determinism. -/
def identsOfList (ms : List Series) : List String :=
  isortBy strLeB (ms.filterMap (fun sr => getLabel sr "c2")).dedup

/-- Distinct identities matched by a filter. -/
def identsOf (m : Manager) (c1 : String) (c2f : C2F) (tf : String) (s : Store) : List String :=
  identsOfList (matchedSeries m c1 c2f tf s)

/-- Range selector over a points list: timestamps are bounded by the
optional from/to API arguments (in seconds, applied in milliseconds). -/
def rangeSel (fromTs toTs : Option Nat) (pts : List (Nat × Int)) : List (Nat × Int) :=
  pts.filter (fun p =>
    (match fromTs with | none => true | some f => decide (f * 1000 ≤ p.1)) &&
    (match toTs with | none => true | some t => decide (p.1 ≤ t * 1000)))

/-- Last-n selector over a points list: the most recent n points not
older than the minimum timestamp. -/
def lastNSel (n minTs : Nat) (pts : List (Nat × Int)) : List (Nat × Int) :=
  let ps := pts.filter (fun p => decide (minTs * 1000 ≤ p.1))
  ps.drop (ps.length - n)

/-- One resolved identity group: the identity, its label set with the
per-line label removed, the raw per-line points and the merged rows
(timestamp in milliseconds, one optional value per declared line,
absent when that line has no point at the timestamp). -/
structure IdentityGroup where
  ident : String
  labels : List (String × String)
  linePts : List (String × List (Nat × Int))
  rows : List (Nat × List (Option Int))
deriving DecidableEq

/-- Modelled from the spec: the per-line point selection of the
query engine for one identity.  Each declared line's matched series
contributes its points through the operation's selector; the
per-identity merge then aligns them on the sorted union of their
timestamps, a timestamp missing on a line yielding an absent value,
never a dropped row. -/
def groupLinePts (m : Manager) (ms : List Series)
    (sel : List (Nat × Int) → List (Nat × Int)) (ident : String) :
    List (String × List (Nat × Int)) :=
  m.td.lines.map (fun line =>
    (line, sel ((((ms.find? (fun sr =>
      getLabel sr "c2" == some ident && getLabel sr "line" == some line)).map
        (fun sr => sr.points)).getD []))))

/-- Sorted union of the timestamps of the selected per-line points. -/
def groupTss (lp : List (String × List (Nat × Int))) : List Nat :=
  isortBy natLeB (lp.foldr (fun q acc => q.2.map (fun p => p.1) ++ acc) []).dedup

/-- Merged rows of one identity: one row per union timestamp, one
optional value per line (absent when the line has no point there). -/
def groupRows (lp : List (String × List (Nat × Int))) :
    List (Nat × List (Option Int)) :=
  (groupTss lp).map (fun ts =>
    (ts, lp.map (fun q => ((q.2.find? (fun p => p.1 == ts)).map (fun p => p.2)))))

/-- Label set reported for an identity group: labels of one of its
series with the per-line label removed. -/
def groupLabels (ms : List Series) (ident : String) : List (String × String) :=
  (((ms.find? (fun sr => getLabel sr "c2" == some ident)).map
    (fun sr => sr.labels)).getD []).filter (fun p => p.1 != "line")

/-- The resolved group of one identity. -/
def groupOf (m : Manager) (ms : List Series)
    (sel : List (Nat × Int) → List (Nat × Int)) (ident : String) : IdentityGroup :=
  ⟨ident, groupLabels ms ident, groupLinePts m ms sel ident,
    groupRows (groupLinePts m ms sel ident)⟩

/-- Error message recorded in the output-formats notebook for an
ambiguous identity filter without the allow-multiple option. -/
def inadequateMsg : String :=
  "Inadequate filters: Multiple lines with the same name are returned. This generally happens when label filters are used as classifiers and labels are not enough. Please add all labels to filter out data properly or turn on the `allow_multiple` option"

/-- Modelled from the spec: the shared resolution step of every read
operation.  The filter is resolved to identity groups; more than one
group without `allow_multiple` fails with the recorded inadequate
filters message and returns no data. -/
def resolveGroups (m : Manager) (c1 : String) (c2f : C2F) (tf : String)
    (allowMultiple : Bool) (sel : List (Nat × Int) → List (Nat × Int))
    (s : Store) : Except String (List IdentityGroup) :=
  let ms := matchedSeries m c1 c2f tf s
  let ids := identsOfList ms
  if allowMultiple = false ∧ 1 < ids.length then .error inadequateMsg
  else .ok (ids.map (groupOf m ms sel))

/-- Rows of all groups, each tagged with its group identity, in group
order (timestamps still in milliseconds). -/
def taggedRows : List IdentityGroup → List (String × Nat × List (Option Int))
  | [] => []
  | g :: gs => g.rows.map (fun r => (g.ident, r.1, r.2)) ++ taggedRows gs

/-- Merge comparator of the query engine: ascending timestamp, with
identity deciding equal timestamps. -/
def rowLeB (a b : String × Nat × List (Option Int)) : Bool :=
  if a.2.1 < b.2.1 then true else if b.2.1 < a.2.1 then false else strLeB a.1 b.1

/-- Modelled from the spec: the cross-identity merge of the query
engine.  All matched identities' rows are merged into one sequence
sorted ascending by timestamp, same-timestamp rows from different
identities kept as separate rows. -/
def sortedMerged (gs : List IdentityGroup) : List (String × Nat × List (Option Int)) :=
  isortBy rowLeB (taggedRows gs)

/-- Full-range read, resolved to identity groups. -/
def readOp (m : Manager) (c1 : String) (c2f : C2F) (tf : String)
    (allowMultiple : Bool) (fromTs toTs : Option Nat) (s : Store) :
    Except String (List IdentityGroup) :=
  resolveGroups m c1 c2f tf allowMultiple (rangeSel fromTs toTs) s

/-- Last-n-records read, resolved to identity groups. -/
def readLastNRecordsOp (m : Manager) (c1 : String) (c2f : C2F) (tf : String)
    (allowMultiple : Bool) (n minTs : Nat) (s : Store) :
    Except String (List IdentityGroup) :=
  resolveGroups m c1 c2f tf allowMultiple (lastNSel n minTs) s

/-- Last-record read. -/
def readLastOp (m : Manager) (c1 : String) (c2f : C2F) (tf : String)
    (allowMultiple : Bool) (s : Store) : Except String (List IdentityGroup) :=
  resolveGroups m c1 c2f tf allowMultiple (lastNSel 1 0) s

/-- Nth-from-last-record read: the merged row that is n-th most recent. -/
def readLastNthRecordOp (m : Manager) (c1 : String) (c2f : C2F) (tf : String)
    (allowMultiple : Bool) (n : Nat) (s : Store) :
    Except String (Option (String × Nat × List (Option Int))) :=
  (resolveGroups m c1 c2f tf allowMultiple (lastNSel n 0) s).map
    (fun gs => (sortedMerged gs).head?)

/-- Backward predicate search from the most recent row. -/
def findLastOp (m : Manager) (c1 : String) (c2f : C2F) (tf : String)
    (allowMultiple : Bool) (pred : (String × Nat × List (Option Int)) → Bool)
    (s : Store) : Except String (Option (String × Nat × List (Option Int))) :=
  (resolveGroups m c1 c2f tf allowMultiple (rangeSel none none) s).map
    (fun gs => (sortedMerged gs).reverse.find? pred)

/-- The supported output shapes. -/
inductive OutFormat where
  | list | df | dict | setsList | setsDf | setsDict | raw
deriving DecidableEq

/-- Normalized read payloads, one constructor per output shape (the
columnar df shapes carry the same rows as the list shapes, the raw
shape carries the unconverted per-line millisecond points). -/
inductive ReadData where
  | list (rows : List (Nat × List (Option Int)))
  | df (rows : List (Nat × List (Option Int)))
  | dict (times : List Nat) (cols : List (String × List (Option Int)))
  | setsList (sets : List (List (String × String) × List (Nat × List (Option Int))))
  | setsDf (sets : List (List (String × String) × List (Nat × List (Option Int))))
  | setsDict (sets : List (List (String × String) × List Nat × List (String × List (Option Int))))
  | raw (sets : List (String × List (String × String) × Nat × List (String × List (Nat × Int))))

/-- Conversion of merged tagged rows to output rows: the stored
millisecond timestamps are converted back to seconds. -/
def rowsSec (rs : List (String × Nat × List (Option Int))) : List (Nat × List (Option Int)) :=
  rs.map (fun r => (r.2.1 / 1000, r.2.2))

/-- Conversion of group rows to output rows (seconds). -/
def groupRowsSec (g : IdentityGroup) : List (Nat × List (Option Int)) :=
  g.rows.map (fun r => (r.1 / 1000, r.2))

/-- Column view of a row sequence: one value sequence per line name. -/
def colsOf (lines : List String) (rows : List (Nat × List (Option Int))) :
    List (String × List (Option Int)) :=
  lines.enum.map (fun p => (p.2, rows.map (fun r => r.2.getD p.1 none)))

/-- Modelled from the spec: the OutputFormatter.  Converts the
resolved groups into the selected output shape without reordering;
every shape but raw converts timestamps back to seconds. -/
def formatGroups (m : Manager) (c1 : String) (fmt : OutFormat)
    (gs : List IdentityGroup) : ReadData :=
  match fmt with
  | .list => .list (rowsSec (sortedMerged gs))
  | .df => .df (rowsSec (sortedMerged gs))
  | .dict =>
    let rows := rowsSec (sortedMerged gs)
    .dict (rows.map (fun r => r.1)) (colsOf m.td.lines rows)
  | .setsList => .setsList (gs.map (fun g => (g.labels, groupRowsSec g)))
  | .setsDf => .setsDf (gs.map (fun g => (g.labels, groupRowsSec g)))
  | .setsDict => .setsDict (gs.map (fun g =>
      let rows := groupRowsSec g
      (g.labels, rows.map (fun r => r.1), colsOf m.td.lines rows)))
  | .raw => .raw (gs.map (fun g =>
      (c1 ++ "_" ++ g.ident, g.labels, g.linePts.length, g.linePts)))

/-- Full read in a chosen output shape. -/
def readFormatted (m : Manager) (c1 : String) (c2f : C2F) (tf : String)
    (allowMultiple : Bool) (fmt : OutFormat) (s : Store) :
    Except String ReadData :=
  (readOp m c1 c2f tf allowMultiple none none s).map (formatGroups m c1 fmt)

/-- Modelled from the spec: the read-length accessor.  For the
ungrouped shapes it reports the row count; for every identity-grouped
shape (including raw) it reports the length of the FIRST group only. -/
def getReadLength : ReadData → Nat
  | .list rows => rows.length
  | .df rows => rows.length
  | .dict times _ => times.length
  | .setsList sets => ((sets.head?).map (fun p => p.2.length)).getD 0
  | .setsDf sets => ((sets.head?).map (fun p => p.2.length)).getD 0
  | .setsDict sets => ((sets.head?).map (fun p => p.2.1.length)).getD 0
  | .raw sets =>
    ((((sets.head?).map (fun p => p.2.2.2)).bind (fun lps => lps.head?)).map
      (fun lp => lp.2.length)).getD 0

/-- Table declaration of the test class of the output-formats notebook. -/
def test1Def : TableDef :=
  { name := "test1"
    lines := ["l1", "l2"]
    timeframes := [("raw", ⟨100000, none, false⟩)] }

/-- The test manager (no aggregator hook: a single timeframe). -/
def test1Mgr : Manager :=
  { td := test1Def
    aggSelect := fun _ _ _ _ _ _ _ => none }

/-- The test rows of the output-formats notebook (identity embedded at
row position 0). -/
def data1 : List (String × Nat × List Int) :=
  [("btc", 100, [1, 2]), ("btc", 101, [3, 4]), ("btc", 102, [5, 6]),
   ("eth", 101, [7, 8]), ("eth", 102, [9, 10]), ("eth", 103, [11, 12]),
   ("eth", 104, [13, 14])]

/-- Store prepared exactly as by `reset_test_data` of the
output-formats notebook. -/
def testStore : Store :=
  (insertPos0 test1Mgr "crypto" "raw" true [("iscrypto", "yes")] data1 emptyStore).2

/-- The label-predicate filter used throughout that notebook. -/
def testFilter : C2F := .labels [("iscrypto", "yes")]

/-- Groups resolved by the ambiguous-filter read of the output-formats
notebook with the allow-multiple option on. -/
def testGroups : List IdentityGroup :=
  match resolveGroups test1Mgr "crypto" testFilter "raw" true (rangeSel none none) testStore with
  | .ok gs => gs
  | .error _ => []

/-- Existence of every base-line series of a classifier pair in a
given timeframe, the precondition under which every per-line append
of an insert succeeds. -/
def linesExist (m : Manager) (c1 c2 tf : String) (s : Store) : Prop :=
  ∀ line ∈ m.td.lines, s.hasKey (keyName m.td c1 c2 tf line) = true

instance (m : Manager) (c1 c2 tf : String) (s : Store) : Decidable (linesExist m c1 c2 tf s) :=
  inferInstanceAs (Decidable (∀ line ∈ m.td.lines, s.hasKey (keyName m.td c1 c2 tf line) = true))

/-- Order on optional row values: an absent value sorts first. -/
def valLeB : Option Int → Option Int → Bool
  | none, _ => true
  | some _, none => false
  | some x, some y => decide (x ≤ y)

/-- Lexicographic order on value rows, used only to state the
deterministic tie ordering. -/
def valsLeB : List (Option Int) → List (Option Int) → Bool
  | [], _ => true
  | _ :: _, [] => false
  | a :: as, b :: bs => if a = b then valsLeB as bs else valLeB a b

/-- The deterministic row ordering of merged query results: ascending
timestamp, and on a timestamp tie the identity decides (strictly, the
identities of tied rows always differ), with values as the residual
tie break. -/
def tieOrdered (a b : String × Nat × List (Option Int)) : Prop :=
  a.2.1 < b.2.1 ∨
    (a.2.1 = b.2.1 ∧
      ((strLeB a.1 b.1 = true ∧ a.1 ≠ b.1) ∨ (a.1 = b.1 ∧ valsLeB a.2.2 b.2.2 = true)))

/-- Tagged rows with equal timestamps never share an identity. -/
def crossRel (a b : String × Nat × List (Option Int)) : Prop :=
  a.2.1 = b.2.1 → a.1 ≠ b.1

/-- Store of the round-trip scenario: the test pair created, before
any insert. -/
def rtBase : Store := (createPair test1Mgr "crypto" "btc" [] emptyStore).2

/-- Store of the round-trip scenario after inserting one row with an
arbitrary second-resolution timestamp. -/
def rtStore (t : Nat) : Store :=
  (insertFixed test1Mgr "crypto" "btc" "raw" false [] [(t, [1, 2])] rtBase).2

/-- Store holding only the l2 series of the test pair, used to show
that one line's append failure leaves sibling lines unaffected. -/
def l2OnlyStore : Store :=
  ⟨[⟨keyName test1Def "crypto" "btc" "raw" "l2",
     labelSet test1Def "crypto" "btc" "raw" "l2" [], 100000, []⟩], []⟩

/-- Inserting into a sorted list is a permutation of consing. -/
theorem perm_insertSorted (le : α → α → Bool) (a : α) (l : List α) :
    (insertSorted le a l).Perm (a :: l) := by
  induction l with
  | nil => simp [insertSorted]
  | cons b bs ih =>
    simp only [insertSorted]
    by_cases h : le a b = true
    · simp [h]
    · simp only [h, if_false]
      exact (ih.cons b).trans (List.Perm.swap a b bs)

/-- Membership through sorted insertion. -/
theorem mem_insertSorted {le : α → α → Bool} {a x : α} {l : List α} :
    x ∈ insertSorted le a l ↔ x = a ∨ x ∈ l := by
  rw [(perm_insertSorted le a l).mem_iff]
  simp

/-- Insertion sort permutes its input. -/
theorem perm_isortBy (le : α → α → Bool) (l : List α) : (isortBy le l).Perm l := by
  induction l with
  | nil => simp [isortBy]
  | cons a as ih => exact (perm_insertSorted le a (isortBy le as)).trans (ih.cons a)

/-- Sorted insertion preserves sortedness for a total transitive
comparator. -/
theorem pairwise_insertSorted (le : α → α → Bool)
    (htot : ∀ a b, le a b = true ∨ le b a = true)
    (htr : ∀ a b c, le a b = true → le b c = true → le a c = true)
    (a : α) (l : List α) (hl : l.Pairwise (fun x y => le x y = true)) :
    (insertSorted le a l).Pairwise (fun x y => le x y = true) := by
  induction l with
  | nil => simp [insertSorted]
  | cons b bs ih =>
    rcases List.pairwise_cons.mp hl with ⟨hb, hbs⟩
    simp only [insertSorted]
    by_cases h : le a b = true
    · simp only [h, if_true]
      refine List.pairwise_cons.mpr ⟨?_, hl⟩
      intro x hx
      rcases List.mem_cons.mp hx with rfl | hx
      · exact h
      · exact htr a b x h (hb x hx)
    · have hba : le b a = true := (htot a b).resolve_left h
      simp only [h, if_false]
      refine List.pairwise_cons.mpr ⟨?_, ih hbs⟩
      intro x hx
      rcases mem_insertSorted.mp hx with rfl | hx
      · exact hba
      · exact hb x hx

/-- Insertion sort sorts, for a total transitive comparator. -/
theorem pairwise_isortBy (le : α → α → Bool)
    (htot : ∀ a b, le a b = true ∨ le b a = true)
    (htr : ∀ a b c, le a b = true → le b c = true → le a c = true)
    (l : List α) : (isortBy le l).Pairwise (fun x y => le x y = true) := by
  induction l with
  | nil => simp [isortBy]
  | cons a as ih => exact pairwise_insertSorted le htot htr a (isortBy le as) ih

/-- Totality of the lexicographic comparator. -/
theorem natLexLe_total (a : List Nat) : ∀ b, natLexLe a b = true ∨ natLexLe b a = true := by
  induction a with
  | nil => intro b; left; rfl
  | cons x xs ih =>
    intro b
    cases b with
    | nil => right; rfl
    | cons y ys =>
      by_cases hxy : x < y
      · left; simp [natLexLe, hxy]
      · by_cases hyx : y < x
        · right; simp [natLexLe, hyx]
        · have hxe : x = y := le_antisymm (not_lt.mp hyx) (not_lt.mp hxy)
          subst hxe
          simpa [natLexLe, lt_self_iff_false] using ih ys

/-- Transitivity of the lexicographic comparator. -/
theorem natLexLe_trans (a : List Nat) :
    ∀ b c, natLexLe a b = true → natLexLe b c = true → natLexLe a c = true := by
  induction a with
  | nil => intro b c _ _; rfl
  | cons x xs ih =>
    intro b c hab hbc
    cases b with
    | nil => simp [natLexLe] at hab
    | cons y ys =>
      cases c with
      | nil => simp [natLexLe] at hbc
      | cons z zs =>
        by_cases hxy : x < y
        · by_cases hyz : y < z
          · simp [natLexLe, lt_trans hxy hyz]
          · by_cases hzy : z < y
            · simp [natLexLe, hyz, hzy] at hbc
            · have hye : y = z := le_antisymm (not_lt.mp hzy) (not_lt.mp hyz)
              subst hye
              simp [natLexLe, hxy]
        · by_cases hyx : y < x
          · simp [natLexLe, hxy, hyx] at hab
          · have hxe : x = y := le_antisymm (not_lt.mp hyx) (not_lt.mp hxy)
            subst hxe
            simp only [natLexLe, lt_self_iff_false, if_false] at hab
            by_cases hxz : x < z
            · simp [natLexLe, hxz]
            · by_cases hzx : z < x
              · simp [natLexLe, hxz, hzx] at hbc
              · have hze : x = z := le_antisymm (not_lt.mp hzx) (not_lt.mp hxz)
                subst hze
                simp only [natLexLe, lt_self_iff_false, if_false] at hbc ⊢
                exact ih ys zs hab hbc

/-- Totality of the string comparator. -/
theorem strLeB_total (s t : String) : strLeB s t = true ∨ strLeB t s = true :=
  natLexLe_total (strKey s) (strKey t)

/-- Transitivity of the string comparator. -/
theorem strLeB_trans (s t u : String) :
    strLeB s t = true → strLeB t u = true → strLeB s u = true :=
  natLexLe_trans (strKey s) (strKey t) (strKey u)

/-- Totality of the natural comparator. -/
theorem natLeB_total (a b : Nat) : natLeB a b = true ∨ natLeB b a = true := by
  simp only [natLeB, Nat.ble_eq]
  omega

/-- Transitivity of the natural comparator. -/
theorem natLeB_trans (a b c : Nat) :
    natLeB a b = true → natLeB b c = true → natLeB a c = true := by
  simp only [natLeB, Nat.ble_eq]
  omega

/-- Totality of the merge comparator. -/
theorem rowLeB_total (a b : String × Nat × List (Option Int)) :
    rowLeB a b = true ∨ rowLeB b a = true := by
  simp only [rowLeB]
  by_cases h1 : a.2.1 < b.2.1
  · left; simp [h1]
  · by_cases h2 : b.2.1 < a.2.1
    · right; simp [h2]
    · simpa [h1, h2] using strLeB_total a.1 b.1

/-- Transitivity of the merge comparator. -/
theorem rowLeB_trans (a b c : String × Nat × List (Option Int)) :
    rowLeB a b = true → rowLeB b c = true → rowLeB a c = true := by
  simp only [rowLeB]
  by_cases hab1 : a.2.1 < b.2.1 <;> by_cases hab2 : b.2.1 < a.2.1 <;>
    by_cases hbc1 : b.2.1 < c.2.1 <;> by_cases hbc2 : c.2.1 < b.2.1 <;>
      by_cases hac1 : a.2.1 < c.2.1 <;> by_cases hac2 : c.2.1 < a.2.1 <;>
        simp [hab1, hab2, hbc1, hbc2, hac1, hac2] <;>
          first
            | omega
            | (intro h1 h2; exact strLeB_trans a.1 b.1 c.1 h1 h2)

/-- Series creation makes its key exist. -/
theorem hasKey_ensureSeries_self (s : Store) (k : String) (ret : Nat)
    (lbl : List (String × String)) : (ensureSeries s k ret lbl).hasKey k = true := by
  unfold ensureSeries
  by_cases h : s.hasKey k = true
  · rw [if_pos h]; exact h
  · rw [if_neg h]
    simp only [Store.hasKey, List.any_append, List.any_cons, List.any_nil,
      beq_self_eq_true, Bool.or_true, Bool.or_false]

/-- Series creation preserves existing keys. -/
theorem hasKey_ensureSeries_mono (s : Store) (k : String) (ret : Nat)
    (lbl : List (String × String)) (k2 : String) (h : s.hasKey k2 = true) :
    (ensureSeries s k ret lbl).hasKey k2 = true := by
  unfold ensureSeries
  by_cases hk : s.hasKey k = true
  · rw [if_pos hk]; exact h
  · rw [if_neg hk]
    simp only [Store.hasKey] at h
    simp only [Store.hasKey, List.any_append, h, Bool.true_or]

/-- Series creation is the identity on an existing key. -/
theorem ensureSeries_of_hasKey {s : Store} {k : String} (ret : Nat)
    (lbl : List (String × String)) (h : s.hasKey k = true) :
    ensureSeries s k ret lbl = s := by
  unfold ensureSeries
  simp [h]

/-- Series creation leaves the rule set unchanged. -/
theorem rules_ensureSeries (s : Store) (k : String) (ret : Nat)
    (lbl : List (String × String)) : (ensureSeries s k ret lbl).rules = s.rules := by
  unfold ensureSeries
  split <;> rfl

/-- Rule creation makes its rule exist. -/
theorem hasRule_ensureRule_self (s : Store) (r : Rule) :
    (ensureRule s r).hasRule r.sourceKey r.destKey = true := by
  unfold ensureRule
  by_cases h : s.hasRule r.sourceKey r.destKey = true
  · rw [if_pos h]; exact h
  · rw [if_neg h]
    simp only [Store.hasRule, List.any_append, List.any_cons, List.any_nil,
      beq_self_eq_true, Bool.and_self, Bool.or_true, Bool.or_false]

/-- Rule creation preserves existing rules. -/
theorem hasRule_ensureRule_mono (s : Store) (r : Rule) (src dst : String)
    (h : s.hasRule src dst = true) : (ensureRule s r).hasRule src dst = true := by
  unfold ensureRule
  by_cases hk : s.hasRule r.sourceKey r.destKey = true
  · rw [if_pos hk]; exact h
  · rw [if_neg hk]
    simp only [Store.hasRule] at h
    simp only [Store.hasRule, List.any_append, h, Bool.true_or]

/-- Rule creation is the identity on an existing rule. -/
theorem ensureRule_of_hasRule {s : Store} {r : Rule}
    (h : s.hasRule r.sourceKey r.destKey = true) : ensureRule s r = s := by
  unfold ensureRule
  simp [h]

/-- Rule creation leaves the series unchanged. -/
theorem series_ensureRule (s : Store) (r : Rule) : (ensureRule s r).series = s.series := by
  unfold ensureRule
  split <;> rfl

/-- The series fold preserves existing keys. -/
theorem seriesFold_hasKey_mono (m : Manager) (c1 c2 : String)
    (extra : List (String × String)) :
    ∀ (L : List (String × TimeframeSpec × String)) (s : Store) (k : String),
      s.hasKey k = true → (seriesFold m c1 c2 extra L s).hasKey k = true := by
  intro L
  induction L with
  | nil => intro s k h; exact h
  | cons t rest ih =>
    intro s k h
    exact ih _ k (hasKey_ensureSeries_mono _ _ _ _ k h)

/-- The series fold creates the key of every listed triple. -/
theorem seriesFold_covers (m : Manager) (c1 c2 : String)
    (extra : List (String × String)) :
    ∀ (L : List (String × TimeframeSpec × String)) (s : Store),
      ∀ t ∈ L, (seriesFold m c1 c2 extra L s).hasKey (keyName m.td c1 c2 t.1 t.2.2) = true := by
  intro L
  induction L with
  | nil => intro s t ht; cases ht
  | cons u rest ih =>
    intro s t ht
    rcases List.mem_cons.mp ht with rfl | ht
    · exact seriesFold_hasKey_mono m c1 c2 extra rest _ _
        (hasKey_ensureSeries_self _ _ _ _)
    · exact ih _ t ht

/-- The series fold is the identity when every listed key exists. -/
theorem seriesFold_id (m : Manager) (c1 c2 : String)
    (extra : List (String × String)) :
    ∀ (L : List (String × TimeframeSpec × String)) (s : Store),
      (∀ t ∈ L, s.hasKey (keyName m.td c1 c2 t.1 t.2.2) = true) →
      seriesFold m c1 c2 extra L s = s := by
  intro L
  induction L with
  | nil => intro s _; rfl
  | cons t rest ih =>
    intro s h
    have h0 := ensureSeries_of_hasKey (s := s) t.2.1.retentionSecs
      (labelSet m.td c1 c2 t.1 t.2.2 extra) (h t (List.mem_cons_self t rest))
    show seriesFold m c1 c2 extra rest (seriesStep m c1 c2 extra s t) = s
    rw [show seriesStep m c1 c2 extra s t = s from h0]
    exact ih s (fun u hu => h u (List.mem_cons_of_mem t hu))

/-- The series fold leaves the rule set unchanged. -/
theorem seriesFold_rules (m : Manager) (c1 c2 : String)
    (extra : List (String × String)) :
    ∀ (L : List (String × TimeframeSpec × String)) (s : Store),
      (seriesFold m c1 c2 extra L s).rules = s.rules := by
  intro L
  induction L with
  | nil => intro s; rfl
  | cons t rest ih =>
    intro s
    show (seriesFold m c1 c2 extra rest (seriesStep m c1 c2 extra s t)).rules = s.rules
    rw [ih]
    exact rules_ensureSeries _ _ _ _

/-- The rules fold preserves existing rules. -/
theorem rulesFold_hasRule_mono :
    ∀ (L : List Rule) (s : Store) (src dst : String),
      s.hasRule src dst = true → (rulesFold L s).hasRule src dst = true := by
  intro L
  induction L with
  | nil => intro s src dst h; exact h
  | cons r rest ih =>
    intro s src dst h
    exact ih _ src dst (hasRule_ensureRule_mono _ r src dst h)

/-- The rules fold creates every listed rule. -/
theorem rulesFold_covers :
    ∀ (L : List Rule) (s : Store),
      ∀ r ∈ L, (rulesFold L s).hasRule r.sourceKey r.destKey = true := by
  intro L
  induction L with
  | nil => intro s r hr; cases hr
  | cons u rest ih =>
    intro s r hr
    rcases List.mem_cons.mp hr with rfl | hr
    · exact rulesFold_hasRule_mono rest _ _ _ (hasRule_ensureRule_self _ _)
    · exact ih _ r hr

/-- The rules fold is the identity when every listed rule exists. -/
theorem rulesFold_id :
    ∀ (L : List Rule) (s : Store),
      (∀ r ∈ L, s.hasRule r.sourceKey r.destKey = true) → rulesFold L s = s := by
  intro L
  induction L with
  | nil => intro s _; rfl
  | cons r rest ih =>
    intro s h
    show rulesFold rest (ensureRule s r) = s
    rw [ensureRule_of_hasRule (h r (List.mem_cons_self r rest))]
    exact ih s (fun u hu => h u (List.mem_cons_of_mem r hu))

/-- The rules fold leaves the series unchanged. -/
theorem rulesFold_series :
    ∀ (L : List Rule) (s : Store), (rulesFold L s).series = s.series := by
  intro L
  induction L with
  | nil => intro s; rfl
  | cons r rest ih =>
    intro s
    show (rulesFold rest (ensureRule s r)).series = s.series
    rw [ih]
    exact series_ensureRule _ _

/-- Existence checks see through a points-only update of the series list. -/
theorem key_map_pointsUpdate (l : List Series) (k k2 : String)
    (f : List (Nat × Int) → List (Nat × Int)) :
    (l.map (fun sr => if sr.key == k then { sr with points := f sr.points } else sr)).any
        (fun sr => sr.key == k2) =
      l.any (fun sr => sr.key == k2) := by
  induction l with
  | nil => rfl
  | cons sr rest ih =>
    simp only [List.map_cons, List.any_cons, ih]
    by_cases h : (sr.key == k) = true
    · simp [h]
    · simp [h]

/-- A point append never changes which series exist. -/
theorem hasKey_appendPoint (s : Store) (k : String) (ts : Nat) (v : Int) (k2 : String) :
    ((appendPoint s k ts v).2).hasKey k2 = s.hasKey k2 := by
  unfold appendPoint
  by_cases h : s.hasKey k = true
  · rw [if_pos h]
    simp only [Store.hasKey]
    exact key_map_pointsUpdate s.series k k2 (fun pts => upsertPoint pts ts v)
  · rw [if_neg h]

/-- A point append to an existing series reports success. -/
theorem appendPoint_ok (s : Store) (k : String) (ts : Nat) (v : Int)
    (h : s.hasKey k = true) : (appendPoint s k ts v).1 = true := by
  unfold appendPoint
  rw [if_pos h]

/-- When every targeted line series exists, the per-row line fan-out
succeeds, counts one point per line, and changes no key's existence. -/
theorem appendLines_props (td : TableDef) (c1 c2 tf : String) (ts : Nat) :
    ∀ (lvs : List (String × Int)) (s : Store),
      (∀ lv ∈ lvs, s.hasKey (keyName td c1 c2 tf lv.1) = true) →
      (appendLines td c1 c2 tf ts lvs s).1 = true ∧
      (appendLines td c1 c2 tf ts lvs s).2.1 = lvs.length ∧
      ∀ k, (appendLines td c1 c2 tf ts lvs s).2.2.hasKey k = s.hasKey k := by
  intro lvs
  induction lvs with
  | nil => intro s _; exact ⟨rfl, rfl, fun k => rfl⟩
  | cons lv rest ih =>
    intro s h
    have hk : s.hasKey (keyName td c1 c2 tf lv.1) = true :=
      h lv (List.mem_cons_self lv rest)
    have hok := appendPoint_ok s (keyName td c1 c2 tf lv.1) ts lv.2 hk
    have hkeys := hasKey_appendPoint s (keyName td c1 c2 tf lv.1) ts lv.2
    have ihh := ih (appendPoint s (keyName td c1 c2 tf lv.1) ts lv.2).2
      (fun lv2 h2 => by rw [hkeys]; exact h lv2 (List.mem_cons_of_mem lv h2))
    simp only [appendLines]
    refine ⟨?_, ?_, ?_⟩
    · simp [hok, ihh.1]
    · simp [hok, ihh.2.1, Nat.add_comm]
    · intro k
      rw [ihh.2.2 k, hkeys k]

/-- When every line series of every row's identity exists and every
row is well formed, the row loop succeeds and counts rows times lines
points, changing no key's existence. -/
theorem insertRowsGo_props (m : Manager) (c1 tf : String)
    (extra : List (String × String)) :
    ∀ (rows : List (String × Nat × List Int)) (s : Store),
      (∀ r ∈ rows, ∀ line ∈ m.td.lines, s.hasKey (keyName m.td c1 r.1 tf line) = true) →
      (∀ r ∈ rows, r.2.2.length = m.td.lines.length) →
      (insertRowsGo m c1 tf false extra rows s).1 = true ∧
      (insertRowsGo m c1 tf false extra rows s).2.1 = rows.length * m.td.lines.length ∧
      ∀ k, (insertRowsGo m c1 tf false extra rows s).2.2.hasKey k = s.hasKey k := by
  intro rows
  induction rows with
  | nil => intro s _ _; exact ⟨rfl, by simp [insertRowsGo], fun k => rfl⟩
  | cons r rest ih =>
    intro s hkeys hlen
    have hlenr : r.2.2.length = m.td.lines.length := hlen r (List.mem_cons_self r rest)
    have hzip : ∀ lv ∈ m.td.lines.zip r.2.2, s.hasKey (keyName m.td c1 r.1 tf lv.1) = true := by
      intro lv hlv
      exact hkeys r (List.mem_cons_self r rest) lv.1 (List.of_mem_zip hlv).1
    have hrow := appendLines_props m.td c1 r.1 tf (r.2.1 * 1000) (m.td.lines.zip r.2.2) s hzip
    have hziplen : (m.td.lines.zip r.2.2).length = m.td.lines.length := by
      rw [List.length_zip, hlenr, Nat.min_self]
    have ihh := ih (appendLines m.td c1 r.1 tf (r.2.1 * 1000) (m.td.lines.zip r.2.2) s).2.2
      (fun r2 h2 line hl => by
        rw [hrow.2.2]
        exact hkeys r2 (List.mem_cons_of_mem r h2) line hl)
      (fun r2 h2 => hlen r2 (List.mem_cons_of_mem r h2))
    simp only [insertRowsGo, if_neg (Bool.false_ne_true), if_pos hlenr]
    refine ⟨?_, ?_, ?_⟩
    · simp [hrow.1, ihh.1]
    · rw [hrow.2.1, hziplen, ihh.2.1]
      simp only [List.length_cons]
      ring
    · intro k
      rw [ihh.2.2 k, hrow.2.2 k]

/-- The merged rows of one identity have strictly increasing
timestamps: the union timestamps are sorted and deduplicated. -/
theorem groupRows_strict (lp : List (String × List (Nat × Int))) :
    (groupRows lp).Pairwise (fun r q => r.1 < q.1) := by
  unfold groupRows
  apply List.pairwise_map.mpr
  have hsort := pairwise_isortBy natLeB natLeB_total natLeB_trans
    ((lp.foldr (fun q acc => q.2.map (fun p => p.1) ++ acc) []).dedup)
  have hnodup : (groupTss lp).Nodup :=
    (perm_isortBy natLeB _).nodup_iff.mpr (List.nodup_dedup _)
  have hcomb := List.Pairwise.and hsort hnodup
  exact hcomb.imp (fun h =>
    lt_of_le_of_ne (by simpa [natLeB, Nat.ble_eq] using h.1) h.2)

/-- The identity of every tagged row is the identity of one of the
groups. -/
theorem mem_ident_taggedRows :
    ∀ (gs : List IdentityGroup) (b : String × Nat × List (Option Int)),
      b ∈ taggedRows gs → b.1 ∈ gs.map (fun g => g.ident) := by
  intro gs
  induction gs with
  | nil => intro b hb; cases hb
  | cons g rest ih =>
    intro b hb
    simp only [taggedRows, List.mem_append] at hb
    rcases hb with hb | hb
    · rcases List.mem_map.mp hb with ⟨r, _, rfl⟩
      simp
    · simp only [List.map_cons, List.mem_cons]
      exact Or.inr (ih b hb)

/-- Tagged rows of groups with pairwise distinct identities and
strictly increasing per-group timestamps never share a timestamp
within one identity. -/
theorem pairwise_crossRel_taggedRows :
    ∀ (gs : List IdentityGroup),
      (gs.map (fun g => g.ident)).Pairwise (fun x y => x ≠ y) →
      (∀ g ∈ gs, g.rows.Pairwise (fun r q => r.1 ≠ q.1)) →
      (taggedRows gs).Pairwise crossRel := by
  intro gs
  induction gs with
  | nil => intro _ _; exact List.Pairwise.nil
  | cons g rest ih =>
    intro hids hrows
    rw [List.map_cons] at hids
    rcases List.pairwise_cons.mp hids with ⟨hg, hrest⟩
    simp only [taggedRows]
    rw [List.pairwise_append]
    refine ⟨?_, ih hrest (fun g2 h2 => hrows g2 (List.mem_cons_of_mem g h2)), ?_⟩
    · apply List.pairwise_map.mpr
      exact (hrows g (List.mem_cons_self g rest)).imp
        (fun hne heq => absurd heq hne)
    · intro a ha b hb
      rcases List.mem_map.mp ha with ⟨r, _, rfl⟩
      intro _
      exact hg b.1 (mem_ident_taggedRows rest b hb)

/-- Inversion of a successful resolution: the groups are one per
matched identity. -/
theorem resolveGroups_ok {m : Manager} {c1 : String} {c2f : C2F} {tf : String}
    {allow : Bool} {sel : List (Nat × Int) → List (Nat × Int)} {s : Store}
    {gs : List IdentityGroup}
    (h : resolveGroups m c1 c2f tf allow sel s = .ok gs) :
    gs = (identsOfList (matchedSeries m c1 c2f tf s)).map
      (groupOf m (matchedSeries m c1 c2f tf s) sel) := by
  unfold resolveGroups at h
  dsimp only at h
  split at h
  · cases h
  · cases h
    rfl

/-- The matched identity list has no duplicates. -/
theorem identsOfList_nodup (ms : List Series) : (identsOfList ms).Nodup :=
  (perm_isortBy strLeB _).nodup_iff.mpr (List.nodup_dedup _)

/-- Rows of every successfully resolved query, merged across
identities, are pairwise in the deterministic timestamp-then-identity
-then-value order. -/
theorem sortedMerged_of_ok {m : Manager} {c1 : String} {c2f : C2F} {tf : String}
    {allow : Bool} {sel : List (Nat × Int) → List (Nat × Int)} {s : Store}
    {gs : List IdentityGroup}
    (h : resolveGroups m c1 c2f tf allow sel s = .ok gs) :
    (sortedMerged gs).Pairwise tieOrdered := by
  have hgs := resolveGroups_ok h
  have hids : (gs.map (fun g => g.ident)).Pairwise (fun x y => x ≠ y) := by
    rw [hgs, List.map_map]
    have hcomp : ((fun g => g.ident) ∘ groupOf m (matchedSeries m c1 c2f tf s) sel) = id := rfl
    rw [hcomp, List.map_id]
    exact identsOfList_nodup _
  have hrows : ∀ g ∈ gs, g.rows.Pairwise (fun r q => r.1 < q.1) := by
    rw [hgs]
    intro g hg
    rcases List.mem_map.mp hg with ⟨i, _, rfl⟩
    exact groupRows_strict _
  have hle := pairwise_isortBy rowLeB rowLeB_total rowLeB_trans (taggedRows gs)
  have hcr0 := pairwise_crossRel_taggedRows gs hids
    (fun g hg => (hrows g hg).imp (fun h2 => ne_of_lt h2))
  have hsymm : ∀ {x y : String × Nat × List (Option Int)}, crossRel x y → crossRel y x :=
    fun hxy heq => Ne.symm (hxy heq.symm)
  have hcr : (sortedMerged gs).Pairwise crossRel :=
    ((perm_isortBy rowLeB (taggedRows gs)).pairwise_iff hsymm).mpr hcr0
  refine (List.Pairwise.and hle hcr).imp ?_
  intro a b hab
  obtain ⟨h1, h2⟩ := hab
  by_cases hts : a.2.1 < b.2.1
  · exact Or.inl hts
  · by_cases hts2 : b.2.1 < a.2.1
    · rw [rowLeB, if_neg hts, if_pos hts2] at h1
      cases h1
    · have he : a.2.1 = b.2.1 := le_antisymm (not_lt.mp hts2) (not_lt.mp hts)
      have hstr : strLeB a.1 b.1 = true := by
        rwa [rowLeB, if_neg hts, if_neg hts2] at h1
      exact Or.inr ⟨he, Or.inl ⟨hstr, h2 he⟩⟩


/-- Existence checks see through the rules fold. -/
theorem hasKey_rulesFold (L : List Rule) (s : Store) (k : String) :
    (rulesFold L s).hasKey k = s.hasKey k := by
  simp only [Store.hasKey, rulesFold_series]

/-- Millisecond-to-second conversion inverts the stored scaling. -/
theorem mulThousandDiv (t : Nat) : t * 1000 / 1000 = t :=
  Nat.mul_div_cancel t (by norm_num)

/-- Concrete value of the created test pair store. -/
theorem rtBase_eq : rtBase =
    ⟨[⟨"test1:crypto:btc:raw:l1",
        [("tl", "test1"), ("c1", "crypto"), ("c2", "btc"), ("line", "l1"), ("timeframe", "raw")],
        100000, []⟩,
      ⟨"test1:crypto:btc:raw:l2",
        [("tl", "test1"), ("c1", "crypto"), ("c2", "btc"), ("line", "l2"), ("timeframe", "raw")],
        100000, []⟩], []⟩ := by rfl

/-- Concrete value of the round-trip store: the API timestamp t is
stored as t * 1000 milliseconds on both line series. -/
theorem rtStore_eq (t : Nat) : rtStore t =
    ⟨[⟨"test1:crypto:btc:raw:l1",
        [("tl", "test1"), ("c1", "crypto"), ("c2", "btc"), ("line", "l1"), ("timeframe", "raw")],
        100000, [(t * 1000, 1)]⟩,
      ⟨"test1:crypto:btc:raw:l2",
        [("tl", "test1"), ("c1", "crypto"), ("c2", "btc"), ("line", "l2"), ("timeframe", "raw")],
        100000, [(t * 1000, 2)]⟩], []⟩ := by
  simp [rtStore, rtBase_eq, insertFixed, insertInto, tfSpec?, test1Mgr, test1Def,
    insertRowsGo, appendLines, appendPoint, Store.hasKey, upsertPoint, keyName]

/-- The list shape of the round-trip read returns the second
timestamp unchanged. -/
theorem roundtrip_list (t : Nat) :
    readFormatted test1Mgr "crypto" (.ident "btc") "raw" false .list (rtStore t) =
      .ok (.list [(t, [some 1, some 2])]) := by
  simp [rtStore_eq, readFormatted, readOp, resolveGroups, matchedSeries, seriesMatches,
    identsOfList, getLabel, test1Mgr, test1Def, groupOf, groupLabels, groupLinePts,
    groupTss, groupRows, rangeSel, keyName, isortBy, insertSorted, natLeB,
    taggedRows, sortedMerged, formatGroups, rowsSec, mulThousandDiv, Except.map,
    List.dedup_cons_of_mem, List.dedup_cons_of_not_mem]

/-- The dict shape of the round-trip read returns the second
timestamp unchanged. -/
theorem roundtrip_dict (t : Nat) :
    readFormatted test1Mgr "crypto" (.ident "btc") "raw" false .dict (rtStore t) =
      .ok (.dict [t] [("l1", [some 1]), ("l2", [some 2])]) := by
  simp [rtStore_eq, readFormatted, readOp, resolveGroups, matchedSeries, seriesMatches,
    identsOfList, getLabel, test1Mgr, test1Def, groupOf, groupLabels, groupLinePts,
    groupTss, groupRows, rangeSel, keyName, isortBy, insertSorted, natLeB,
    taggedRows, sortedMerged, formatGroups, rowsSec, colsOf, mulThousandDiv, Except.map,
    List.dedup_cons_of_mem, List.dedup_cons_of_not_mem]
  rfl

/-- The sets-list shape of the round-trip read returns the second
timestamp unchanged. -/
theorem roundtrip_sets (t : Nat) :
    readFormatted test1Mgr "crypto" (.ident "btc") "raw" false .setsList (rtStore t) =
      .ok (.setsList [([("tl", "test1"), ("c1", "crypto"), ("c2", "btc"), ("timeframe", "raw")],
        [(t, [some 1, some 2])])]) := by
  simp [rtStore_eq, readFormatted, readOp, resolveGroups, matchedSeries, seriesMatches,
    identsOfList, getLabel, test1Mgr, test1Def, groupOf, groupLabels, groupLinePts,
    groupTss, groupRows, rangeSel, keyName, isortBy, insertSorted, natLeB,
    taggedRows, sortedMerged, formatGroups, groupRowsSec, mulThousandDiv, Except.map,
    List.dedup_cons_of_mem, List.dedup_cons_of_not_mem]

/-- The raw shape of the round-trip read exposes the stored
millisecond timestamps unconverted. -/
theorem roundtrip_raw (t : Nat) :
    readFormatted test1Mgr "crypto" (.ident "btc") "raw" false .raw (rtStore t) =
      .ok (.raw [("crypto_btc",
        [("tl", "test1"), ("c1", "crypto"), ("c2", "btc"), ("timeframe", "raw")], 2,
        [("l1", [(t * 1000, 1)]), ("l2", [(t * 1000, 2)])])]) := by
  simp [rtStore_eq, readFormatted, readOp, resolveGroups, matchedSeries, seriesMatches,
    identsOfList, getLabel, test1Mgr, test1Def, groupOf, groupLabels, groupLinePts,
    groupTss, groupRows, rangeSel, keyName, isortBy, insertSorted, natLeB,
    formatGroups, Except.map,
    List.dedup_cons_of_mem, List.dedup_cons_of_not_mem]

/-- C1: every read-path operation (read, read_last_n_records,
read_last_nth_record, read_last, find_last) whose classifier filter
matches more than one distinct identity fails, when allow_multiple is
off, with the recorded inadequate-filters message and returns no
merged data. -/
theorem read_ambiguous_filter_fails (m : Manager) (c1 : String) (c2f : C2F)
    (tf : String) (s : Store) (fromTs toTs : Option Nat) (n minTs nth : Nat)
    (pred : (String × Nat × List (Option Int)) → Bool)
    (h : 1 < (identsOf m c1 c2f tf s).length) :
    readOp m c1 c2f tf false fromTs toTs s = .error inadequateMsg ∧
    readLastNRecordsOp m c1 c2f tf false n minTs s = .error inadequateMsg ∧
    readLastNthRecordOp m c1 c2f tf false nth s = .error inadequateMsg ∧
    readLastOp m c1 c2f tf false s = .error inadequateMsg ∧
    findLastOp m c1 c2f tf false pred s = .error inadequateMsg := by
  have hc : false = false ∧ 1 < (identsOfList (matchedSeries m c1 c2f tf s)).length :=
    ⟨rfl, h⟩
  have hres : ∀ sel, resolveGroups m c1 c2f tf false sel s = .error inadequateMsg := by
    intro sel
    unfold resolveGroups
    dsimp only
    rw [if_pos hc]
  refine ⟨hres _, hres _, ?_, hres _, ?_⟩
  · unfold readLastNthRecordOp
    rw [hres _]
    rfl
  · unfold findLastOp
    rw [hres _]
    rfl

/-- Witness for C1 at the recorded notebook scenario: the
iscrypto-label filter matches the two identities btc and eth. -/
theorem read_ambiguous_filter_fails_witness :
    readOp test1Mgr "crypto" testFilter "raw" false none none testStore = .error inadequateMsg ∧
    readLastNRecordsOp test1Mgr "crypto" testFilter "raw" false 10 0 testStore = .error inadequateMsg ∧
    readLastNthRecordOp test1Mgr "crypto" testFilter "raw" false 1 testStore = .error inadequateMsg ∧
    readLastOp test1Mgr "crypto" testFilter "raw" false testStore = .error inadequateMsg ∧
    findLastOp test1Mgr "crypto" testFilter "raw" false (fun _ => true) testStore = .error inadequateMsg :=
  read_ambiguous_filter_fails test1Mgr "crypto" testFilter "raw" testStore
    none none 10 0 1 (fun _ => true) (by decide)

/-- C2: a read with allow_multiple on returns the union of all
matched identities' rows (the merged sequence is a permutation of the
concatenated group rows, so nothing is deduplicated or averaged), and
on the recorded notebook scenario the seven rows come back sorted by
timestamp with both identities' rows present at the tied timestamps
101 and 102. -/
theorem read_allow_multiple_union :
    (∀ gs : List IdentityGroup, (sortedMerged gs).Perm (taggedRows gs)) ∧
    readFormatted test1Mgr "crypto" testFilter "raw" true .list testStore =
      .ok (.list [(100, [some 1, some 2]), (101, [some 3, some 4]), (101, [some 7, some 8]),
        (102, [some 5, some 6]), (102, [some 9, some 10]), (103, [some 11, some 12]),
        (104, [some 13, some 14])]) ∧
    (readFormatted test1Mgr "crypto" testFilter "raw" true .list testStore).map getReadLength =
      .ok 7 :=
  ⟨fun gs => perm_isortBy rowLeB (taggedRows gs), by rfl, by decide⟩

/-- C3: the merged rows of every successfully resolved query are
pairwise ordered ascending by timestamp, with a timestamp tie broken
by identity and then value; the order is deterministic because the
comparison is strict on every tie (tied rows always carry distinct
identities). -/
theorem query_rows_sorted_deterministic (m : Manager) (c1 : String) (c2f : C2F)
    (tf : String) (allow : Bool) (sel : List (Nat × Int) → List (Nat × Int))
    (s : Store) (gs : List IdentityGroup)
    (h : resolveGroups m c1 c2f tf allow sel s = .ok gs) :
    (sortedMerged gs).Pairwise tieOrdered :=
  sortedMerged_of_ok h

/-- Witness for C3 at the recorded notebook scenario. -/
theorem query_rows_sorted_deterministic_witness :
    (sortedMerged testGroups).Pairwise tieOrdered :=
  query_rows_sorted_deterministic test1Mgr "crypto" testFilter "raw" true
    (rangeSel none none) testStore testGroups (by rfl)

/-- C4: the physical series identifier is exactly
table:c1:c2:timeframe:line, the label derivation is a pure function
of its arguments, and the key list produced for the three MarketData
pairs is exactly the sorted 60-key list recorded by query_index in
the notebook. -/
theorem series_key_derivation :
    (∀ (td : TableDef) (c1 c2 tf line : String),
      keyName td c1 c2 tf line =
        td.name ++ ":" ++ c1 ++ ":" ++ c2 ++ ":" ++ tf ++ ":" ++ line) ∧
    (∀ (td : TableDef) (c1 c2 tf line : String) (extra : List (String × String)),
      labelSet td c1 c2 tf line extra =
        extra ++ [("tl", td.name), ("c1", c1), ("c2", c2), ("line", line), ("timeframe", tf)]) ∧
    queryIndexKeys marketStore =
      ["markets:crypto:btc:1d:close",
       "markets:crypto:btc:1d:high",
       "markets:crypto:btc:1d:low",
       "markets:crypto:btc:1d:open",
       "markets:crypto:btc:1d:volume",
       "markets:crypto:btc:1h:close",
       "markets:crypto:btc:1h:high",
       "markets:crypto:btc:1h:low",
       "markets:crypto:btc:1h:open",
       "markets:crypto:btc:1h:volume",
       "markets:crypto:btc:1m:close",
       "markets:crypto:btc:1m:high",
       "markets:crypto:btc:1m:low",
       "markets:crypto:btc:1m:open",
       "markets:crypto:btc:1m:volume",
       "markets:crypto:btc:raw:close",
       "markets:crypto:btc:raw:high",
       "markets:crypto:btc:raw:low",
       "markets:crypto:btc:raw:open",
       "markets:crypto:btc:raw:volume",
       "markets:crypto:eth:1d:close",
       "markets:crypto:eth:1d:high",
       "markets:crypto:eth:1d:low",
       "markets:crypto:eth:1d:open",
       "markets:crypto:eth:1d:volume",
       "markets:crypto:eth:1h:close",
       "markets:crypto:eth:1h:high",
       "markets:crypto:eth:1h:low",
       "markets:crypto:eth:1h:open",
       "markets:crypto:eth:1h:volume",
       "markets:crypto:eth:1m:close",
       "markets:crypto:eth:1m:high",
       "markets:crypto:eth:1m:low",
       "markets:crypto:eth:1m:open",
       "markets:crypto:eth:1m:volume",
       "markets:crypto:eth:raw:close",
       "markets:crypto:eth:raw:high",
       "markets:crypto:eth:raw:low",
       "markets:crypto:eth:raw:open",
       "markets:crypto:eth:raw:volume",
       "markets:irx:usd:1d:close",
       "markets:irx:usd:1d:high",
       "markets:irx:usd:1d:low",
       "markets:irx:usd:1d:open",
       "markets:irx:usd:1d:volume",
       "markets:irx:usd:1h:close",
       "markets:irx:usd:1h:high",
       "markets:irx:usd:1h:low",
       "markets:irx:usd:1h:open",
       "markets:irx:usd:1h:volume",
       "markets:irx:usd:1m:close",
       "markets:irx:usd:1m:high",
       "markets:irx:usd:1m:low",
       "markets:irx:usd:1m:open",
       "markets:irx:usd:1m:volume",
       "markets:irx:usd:raw:close",
       "markets:irx:usd:raw:high",
       "markets:irx:usd:raw:low",
       "markets:irx:usd:raw:open",
       "markets:irx:usd:raw:volume"] :=
  ⟨fun _ _ _ _ _ => rfl, fun _ _ _ _ _ _ => rfl, by decide⟩

/-- C5 counterexample: in the store created for the MarketData pair
crypto:btc, the downsampling rule feeding markets:crypto:btc:1h:close
has source markets:crypto:btc:raw:close, and no rule at all has
source markets:crypto:btc:1m:close, refuting the claimed nearest-
earlier-timeframe chain (which would feed 1h from 1m). -/
theorem rule_chain_counterexample :
    (btcStore.rules.filter (fun r => r.destKey == "markets:crypto:btc:1h:close")).map
        (fun r => r.sourceKey) = ["markets:crypto:btc:raw:close"] ∧
    btcStore.rules.all (fun r => r.sourceKey != "markets:crypto:btc:1m:close") = true := by
  decide

/-- C5 amended: every downsampling rule created for a classifier pair
has the base timeframe's series of its line as source (the rules fan
out from the base rather than chaining), matching the recorded stats
output where the raw close series lists the rules into 1m, 1h and 1d. -/
theorem rules_fan_out_from_base :
    statsRules btcStore "markets:crypto:btc:raw:close" =
      [("markets:crypto:btc:1m:close", 60, "last"),
       ("markets:crypto:btc:1h:close", 3600, "last"),
       ("markets:crypto:btc:1d:close", 86400, "last")] ∧
    btcStore.rules.all (fun r =>
      marketDef.lines.any (fun l =>
        r.sourceKey == keyName marketDef "crypto" "btc" "raw" l)) = true ∧
    btcStore.rules.length = 15 := by
  decide

/-- C6: an insert whose target timeframe carries a bucket duration (a
managed compaction target) is rejected by the coordinator itself and
appends nothing, while the same insert into the bucketless base
timeframe is accepted. -/
theorem insert_compaction_target_rejected :
    (∀ (m : Manager) (c1 tf : String) (ci : Bool) (extra : List (String × String))
      (rows : List (String × Nat × List Int)) (s : Store) (spec : TimeframeSpec),
      tfSpec? m.td tf = some spec → spec.bucketSecs.isSome = true →
      insertInto m c1 tf ci extra rows s = ((false, 0), s)) ∧
    insertFixed marketMgr "crypto" "btc" "1h" false [] [(1000, [1, 2, 3, 4, 5])] btcStore =
      ((false, 0), btcStore) ∧
    (insertFixed marketMgr "crypto" "btc" "raw" false [] [(1000, [1, 2, 3, 4, 5])] btcStore).1 =
      (true, 5) := by
  refine ⟨?_, by decide, by decide⟩
  intro m c1 tf ci extra rows s spec h1 h2
  unfold insertInto
  simp only [h1, h2, if_true]

/-- Witness for C6 at the 1h compaction target of the MarketData
table. -/
theorem insert_compaction_target_rejected_witness :
    insertInto marketMgr "crypto" "1h" false [] [] emptyStore = ((false, 0), emptyStore) :=
  insert_compaction_target_rejected.1 marketMgr "crypto" "1h" false [] [] emptyStore
    ⟨2592000, some 3600, false⟩ (by decide) (by decide)

/-- C7: an insert of R well-formed rows over L declared lines whose
per-line appends all succeed reports success and R times L appended
points, and a missing line series (l1 here) does not prevent the
sibling line's points from being appended, the count reporting only
the successful ones. -/
theorem insert_counts_points_per_line :
    (∀ (m : Manager) (c1 c2 tf : String) (extra : List (String × String))
      (rows : List (Nat × List Int)) (s : Store) (spec : TimeframeSpec),
      tfSpec? m.td tf = some spec → spec.bucketSecs = none →
      linesExist m c1 c2 tf s →
      (∀ r ∈ rows, r.2.length = m.td.lines.length) →
      (insertFixed m c1 c2 tf false extra rows s).1 =
        (true, rows.length * m.td.lines.length)) ∧
    (insertFixed test1Mgr "crypto" "btc" "raw" false []
      [(100, [1, 2]), (101, [3, 4]), (102, [5, 6])] l2OnlyStore).1 = (false, 3) ∧
    (insertFixed test1Mgr "crypto" "btc" "raw" false []
      [(100, [1, 2]), (101, [3, 4]), (102, [5, 6])] l2OnlyStore).2.series.map
        (fun sr => (sr.key, sr.points)) =
      [("test1:crypto:btc:raw:l2", [(100000, 2), (101000, 4), (102000, 6)])] := by
  refine ⟨?_, by decide, by rfl⟩
  intro m c1 c2 tf extra rows s spec h1 h2 h3 h4
  unfold insertFixed insertInto
  simp only [h1]
  rw [h2]
  simp only [Option.isSome_none, Bool.false_eq_true, if_false]
  have hprops := insertRowsGo_props m c1 tf extra (rows.map (fun r => (c2, r.1, r.2))) s
    (fun rr hrr line hl => by
      rcases List.mem_map.mp hrr with ⟨r0, _, rfl⟩
      exact h3 line hl)
    (fun rr hrr => by
      rcases List.mem_map.mp hrr with ⟨r0, h0, rfl⟩
      exact h4 r0 h0)
  rw [Prod.ext_iff]
  exact ⟨hprops.1, by rw [hprops.2.1, List.length_map]⟩

/-- Witness for C7 at a fresh test pair: one row over two lines
counts two points. -/
theorem insert_counts_points_per_line_witness :
    (insertFixed test1Mgr "crypto" "btc" "raw" false [] [(5, [7, 8])] rtBase).1 =
      (true, [(5, ([7, 8] : List Int))].length * test1Mgr.td.lines.length) :=
  insert_counts_points_per_line.1 test1Mgr "crypto" "btc" "raw" [] [(5, [7, 8])] rtBase
    ⟨100000, none, false⟩ (by decide) (by decide) (by decide) (by decide)

/-- C8: lifecycle creation is idempotent: re-invoking create for an
already-created classifier pair returns the same success result and
leaves the store unchanged, so no series is recreated and no
duplicate rule is added. -/
theorem create_idempotent (m : Manager) (c1 c2 : String)
    (extra : List (String × String)) (s : Store) :
    createPair m c1 c2 extra ((createPair m c1 c2 extra s).2) =
      ((true, "Create " ++ c1 ++ ":" ++ c2 ++ " success!"), (createPair m c1 c2 extra s).2) := by
  have hkeys1 : ∀ t ∈ tfLineTriples m.td,
      (createSeriesPhase m c1 c2 extra s).hasKey (keyName m.td c1 c2 t.1 t.2.2) = true :=
    seriesFold_covers m c1 c2 extra (tfLineTriples m.td) s
  have hkeys2 : ∀ t ∈ tfLineTriples m.td,
      (createRulesPhase m c1 c2 (createSeriesPhase m c1 c2 extra s)).hasKey
        (keyName m.td c1 c2 t.1 t.2.2) = true := by
    intro t ht
    unfold createRulesPhase
    rw [hasKey_rulesFold]
    exact hkeys1 t ht
  have hphase1 : createSeriesPhase m c1 c2 extra
      (createRulesPhase m c1 c2 (createSeriesPhase m c1 c2 extra s)) =
      createRulesPhase m c1 c2 (createSeriesPhase m c1 c2 extra s) :=
    seriesFold_id m c1 c2 extra (tfLineTriples m.td) _ hkeys2
  have hrules : ∀ r ∈ ruleRequests m c1 c2,
      (createRulesPhase m c1 c2 (createSeriesPhase m c1 c2 extra s)).hasRule
        r.sourceKey r.destKey = true :=
    fun r hr => rulesFold_covers (ruleRequests m c1 c2) _ r hr
  have hphase2 : createRulesPhase m c1 c2
      (createRulesPhase m c1 c2 (createSeriesPhase m c1 c2 extra s)) =
      createRulesPhase m c1 c2 (createSeriesPhase m c1 c2 extra s) :=
    rulesFold_id (ruleRequests m c1 c2) _ hrules
  show ((true, _), createRulesPhase m c1 c2 (createSeriesPhase m c1 c2 extra
    (createRulesPhase m c1 c2 (createSeriesPhase m c1 c2 extra s)))) = _
  rw [hphase1, hphase2]
  rfl

/-- C9: the read-length accessor reports the row count of the first
group only for every identity-grouped shape (3 here, the first group
having 3 rows and the second 4), while the ungrouped shapes report
the total of 7. -/
theorem read_length_reports_first_group :
    testGroups.map (fun g => g.rows.length) = [3, 4] ∧
    (readFormatted test1Mgr "crypto" testFilter "raw" true .list testStore).map getReadLength = .ok 7 ∧
    (readFormatted test1Mgr "crypto" testFilter "raw" true .df testStore).map getReadLength = .ok 7 ∧
    (readFormatted test1Mgr "crypto" testFilter "raw" true .dict testStore).map getReadLength = .ok 7 ∧
    (readFormatted test1Mgr "crypto" testFilter "raw" true .setsList testStore).map getReadLength = .ok 3 ∧
    (readFormatted test1Mgr "crypto" testFilter "raw" true .setsDf testStore).map getReadLength = .ok 3 ∧
    (readFormatted test1Mgr "crypto" testFilter "raw" true .setsDict testStore).map getReadLength = .ok 3 ∧
    (readFormatted test1Mgr "crypto" testFilter "raw" true .raw testStore).map getReadLength = .ok 3 := by
  decide

/-- C10: an inserted second-resolution timestamp t is stored as
t * 1000 milliseconds, every non-raw output shape converts it back to
t exactly, and the raw shape exposes the millisecond value
unconverted. -/
theorem timestamp_roundtrip : ∀ t : Nat,
    (rtStore t).series.map (fun sr => sr.points) = [[(t * 1000, 1)], [(t * 1000, 2)]] ∧
    readFormatted test1Mgr "crypto" (.ident "btc") "raw" false .list (rtStore t) =
      .ok (.list [(t, [some 1, some 2])]) ∧
    readFormatted test1Mgr "crypto" (.ident "btc") "raw" false .dict (rtStore t) =
      .ok (.dict [t] [("l1", [some 1]), ("l2", [some 2])]) ∧
    readFormatted test1Mgr "crypto" (.ident "btc") "raw" false .setsList (rtStore t) =
      .ok (.setsList [([("tl", "test1"), ("c1", "crypto"), ("c2", "btc"), ("timeframe", "raw")],
        [(t, [some 1, some 2])])]) ∧
    readFormatted test1Mgr "crypto" (.ident "btc") "raw" false .raw (rtStore t) =
      .ok (.raw [("crypto_btc",
        [("tl", "test1"), ("c1", "crypto"), ("c2", "btc"), ("timeframe", "raw")], 2,
        [("l1", [(t * 1000, 1)]), ("l2", [(t * 1000, 2)])])]) :=
  fun t => ⟨by simp [rtStore_eq], roundtrip_list t, roundtrip_dict t,
    roundtrip_sets t, roundtrip_raw t⟩
